import Mathlib

/-
Shallow embedding of the todo-list CRUD backend (Go + SQLite).

The repository layer (internal/database/todo_repository.go) is modelled over
an in-memory table: a DBState holds the rows in insertion (rowid) order and
the next AUTOINCREMENT id. SQL fragments are translated as follows:
 - WHERE clauses become List.filter with a predicate built exactly as the Go
   code builds its conjunction of clauses;
 - ORDER BY <field> <dir> becomes a stable insertion sort on that field
   (ties keep insertion order);
 - LIKE is implemented with SQLite's semantics: `%` matches any sequence,
   `_` matches one character, letters compare ASCII case-insensitively;
 - timestamps are Nat instants (time.Now() passed in explicitly);
 - an injectable execution failure models a failed SQL statement where a
   claim is about error mapping.
The HTTP handler layer (internal/handlers/todo_handler.go) is modelled as
functions from parsed query parameters / repository outcomes to results and
status codes, following the Go control flow line by line.
-/

namespace TodoApp

/-- models.Todo (internal/models/todo.go). ID is int64, timestamps are
instants (modelled as Nat). -/
structure Todo where
  ID : Int
  Title : String
  Description : String
  Completed : Bool
  CreatedAt : Nat
  UpdatedAt : Nat
deriving DecidableEq, Repr

/-- models.CreateTodoRequest: title required, description optional
(decoded as the empty string when omitted from the JSON body). -/
structure CreateTodoRequest where
  Title : String
  Description : String
deriving DecidableEq, Repr

/-- models.UpdateTodoRequest: three independently optional fields
(Go pointers; none = field absent from the JSON body). -/
structure UpdateTodoRequest where
  Title : Option String
  Description : Option String
  Completed : Option Bool
deriving DecidableEq, Repr

/-- The todos table: rows in insertion (rowid) order plus the next
AUTOINCREMENT id. -/
structure DBState where
  rows : List Todo
  nextId : Int
deriving DecidableEq, Repr

/-- database.FilterOptions (todo_repository.go). -/
structure FilterOptions where
  Search : String
  Completed : Option Bool
  SortBy : String
  SortOrder : String
deriving DecidableEq, Repr

/-- The nonempty suffixes of a character list, longest first, ending with []. -/
def suffixes : List Char → List (List Char)
  | [] => [[]]
  | c :: cs => (c :: cs) :: suffixes cs

/-- SQLite LIKE matching: `%` matches any sequence, `_` one character,
letters ASCII case-insensitively. -/
def likeMatch : List Char → List Char → Bool
  | [], s => s.isEmpty
  | '%' :: ps, s => (suffixes s).any fun t => likeMatch ps t
  | '_' :: _, [] => false
  | '_' :: ps, _ :: cs => likeMatch ps cs
  | _ :: _, [] => false
  | p :: ps, c :: cs => (p.toLower == c.toLower) && likeMatch ps cs

/-- The pattern Search builds: searchTerm := "%" + opts.Search + "%". -/
def likePat (s : String) : List Char := ("%" ++ s ++ "%").toList

/-- The WHERE clause Search builds: starts from 1=1, ANDs in the LIKE
disjunction when Search is nonempty and the completed equality when the
tri-state is set. -/
def rowPasses (opts : FilterOptions) (t : Todo) : Bool :=
  (if opts.Search != "" then
      likeMatch (likePat opts.Search) t.Title.toList
        || likeMatch (likePat opts.Search) t.Description.toList
    else true)
  && (match opts.Completed with
      | some c => t.Completed == c
      | none => true)

/-- The allow-list in Search: validFields := map with keys created_at,
updated_at, title. -/
def validSortField (s : String) : Bool :=
  s == "created_at" || s == "updated_at" || s == "title"

/-- sortBy := "created_at"; only if opts.SortBy is nonempty and in the
allow-list is it used. -/
def resolveSortBy (s : String) : String :=
  if s != "" then (if validSortField s then s else "created_at") else "created_at"

/-- sortOrder := "DESC"; ASC only when opts.SortOrder != "" and equals
the literal "asc". -/
def resolveSortAsc (s : String) : Bool :=
  s != "" && s == "asc"

/-- Comparison on the resolved sort column (SQL ORDER BY key, ascending). -/
def fieldLe (field : String) (a b : Todo) : Bool :=
  if field == "updated_at" then decide (a.UpdatedAt ≤ b.UpdatedAt)
  else if field == "title" then decide (a.Title ≤ b.Title)
  else decide (a.CreatedAt ≤ b.CreatedAt)

/-- ORDER BY direction: ascending when asc, otherwise the flipped key. -/
def sortLe (field : String) (asc : Bool) (a b : Todo) : Bool :=
  if asc then fieldLe field a b else fieldLe field b a

/-- Stable ordered insert for the ORDER BY model. -/
def orderedIns (le : Todo → Todo → Bool) (x : Todo) : List Todo → List Todo
  | [] => [x]
  | y :: ys => if le x y then x :: y :: ys else y :: orderedIns le x ys

/-- Stable insertion sort: ORDER BY with ties kept in insertion order. -/
def sortRows (le : Todo → Todo → Bool) : List Todo → List Todo
  | [] => []
  | x :: xs => orderedIns le x (sortRows le xs)

/-- TodoRepository.Create: INSERT with completed = 0, created_at =
updated_at = now, RETURNING the stored row (id is the AUTOINCREMENT value). -/
def Create (req : CreateTodoRequest) (now : Nat) (db : DBState) : Todo × DBState :=
  let t : Todo :=
    { ID := db.nextId, Title := req.Title, Description := req.Description,
      Completed := false, CreatedAt := now, UpdatedAt := now }
  (t, { rows := db.rows ++ [t], nextId := db.nextId + 1 })

/-- TodoRepository.GetAll: SELECT ... ORDER BY created_at DESC. -/
def GetAll (db : DBState) : List Todo :=
  sortRows (sortLe "created_at" false) db.rows

/-- TodoRepository.Search: WHERE clauses then ORDER BY the resolved field
and direction. -/
def Search (opts : FilterOptions) (db : DBState) : List Todo :=
  sortRows (sortLe (resolveSortBy opts.SortBy) (resolveSortAsc opts.SortOrder))
    (db.rows.filter (rowPasses opts))

/-- TodoRepository.GetByID: SELECT ... WHERE id = ?; sql.ErrNoRows becomes
the none (not-found) outcome. -/
def GetByID (id : Int) (db : DBState) : Option Todo :=
  db.rows.find? fun t => t.ID == id

/-- The row transformation of the dynamic UPDATE statement: always sets
updated_at = now, then each field only when present in the request. -/
def applyUpdate (req : UpdateTodoRequest) (now : Nat) (t : Todo) : Todo :=
  let t1 := { t with UpdatedAt := now }
  let t2 := match req.Title with
    | some v => { t1 with Title := v }
    | none => t1
  let t3 := match req.Description with
    | some v => { t2 with Description := v }
    | none => t2
  match req.Completed with
  | some v => { t3 with Completed := v }
  | none => t3

/-- TodoRepository.Update: look up the row; absent means (nil, nil) with no
write; otherwise run the dynamic UPDATE ... WHERE id = ? and re-fetch. -/
def Update (id : Int) (req : UpdateTodoRequest) (now : Nat) (db : DBState) :
    Option Todo × DBState :=
  match GetByID id db with
  | none => (none, db)
  | some _ =>
    let db' : DBState :=
      { db with rows := db.rows.map fun t => if t.ID == id then applyUpdate req now t else t }
    (GetByID id db', db')

/-- The outcome of TodoRepository.Delete: nil, sql.ErrNoRows, or a wrapped
execution error. -/
inductive DeleteResult where
  | ok
  | errNoRows
  | execFailed (msg : String)
deriving DecidableEq, Repr

/-- TodoRepository.Delete: DELETE ... WHERE id = ?; a failed execution is
returned wrapped (execErr injects that environment failure), zero affected
rows is sql.ErrNoRows, otherwise success. -/
def Delete (execErr : Option String) (id : Int) (db : DBState) :
    DeleteResult × DBState :=
  match execErr with
  | some e => (.execFailed e, db)
  | none =>
    let rows' := db.rows.filter fun t => !(t.ID == id)
    if rows'.length == db.rows.length then (.errNoRows, db)
    else (.ok, { db with rows := rows' })

/-- The query parameters GetAllTodos reads: search, completed, sortBy,
sortOrder (absent parameters read as ""). -/
structure QueryParams where
  search : String
  completed : String
  sortBy : String
  sortOrder : String
deriving DecidableEq, Repr

/-- How GetAllTodos composes FilterOptions: the completed filter is set
whenever the string is nonempty, to (completedStr == "true"). -/
def buildOpts (q : QueryParams) : FilterOptions :=
  { Search := q.search, SortBy := q.sortBy, SortOrder := q.sortOrder,
    Completed := if q.completed != "" then some (q.completed == "true") else none }

/-- The fast-path test in GetAllTodos: search == "" && opts.Completed == nil
&& sortBy == "" (sortOrder is not consulted). -/
def fastPathCond (q : QueryParams) : Bool :=
  q.search == "" && (buildOpts q).Completed.isNone && q.sortBy == ""

/-- Handler GetAllTodos: the GetAll fast path or Search on the composed
options. -/
def GetAllTodos (q : QueryParams) (db : DBState) : List Todo :=
  if fastPathCond q then GetAll db else Search (buildOpts q) db

/-- Handler DeleteTodo's status mapping: err != nil is answered 404
"Todo not found" whatever the error; nil is 204. -/
def DeleteTodoStatus (execErr : Option String) (id : Int) (db : DBState) : Nat :=
  match (Delete execErr id db).1 with
  | .ok => 204
  | _ => 404

/-- Literal containment of pat in s (no wildcard reading), for stating what
LIKE does not do. -/
def isPrefixL : List Char → List Char → Bool
  | [], _ => true
  | _ :: _, [] => false
  | p :: ps, c :: cs => p == c && isPrefixL ps cs

/-- Whether pat occurs in s as a literal substring. -/
def containsSub (pat : List Char) : List Char → Bool
  | [] => isPrefixL pat []
  | c :: cs => isPrefixL pat (c :: cs) || containsSub pat cs

/-- One repository mutation, for the reachable-state relation. -/
inductive Op where
  | createOp (req : CreateTodoRequest)
  | updateOp (id : Int) (req : UpdateTodoRequest)
  | deleteOp (id : Int)

/-- The state left by one mutation executed at instant now. -/
def applyOp (op : Op) (now : Nat) (db : DBState) : DBState :=
  match op with
  | .createOp req => (Create req now db).2
  | .updateOp id req => (Update id req now db).2
  | .deleteOp id => (Delete none id db).2

/-- Store states reachable from the fresh schema (empty table, AUTOINCREMENT
at 1) by mutations executed at nondecreasing instants; the Nat is the instant
of the last mutation. -/
inductive Reach : DBState → Nat → Prop where
  | init : Reach ⟨[], 1⟩ 0
  | step (op : Op) (now : Nat) {db : DBState} {τ : Nat} :
      Reach db τ → τ ≤ now → Reach (applyOp op now db) now

/-- Ordered insert keeps exactly the inserted element and the old ones. -/
theorem mem_orderedIns (le : Todo → Todo → Bool) (x t : Todo) (l : List Todo) :
    t ∈ orderedIns le x l ↔ t = x ∨ t ∈ l := by
  induction l with
  | nil => simp [orderedIns]
  | cons y ys ih =>
    cases hxy : le x y
    · simp only [orderedIns, hxy, Bool.false_eq_true, if_false, List.mem_cons, ih]
      tauto
    · simp [orderedIns, hxy, ih]

/-- The ORDER BY model returns exactly the input rows. -/
theorem mem_sortRows (le : Todo → Todo → Bool) (t : Todo) (l : List Todo) :
    t ∈ sortRows le l ↔ t ∈ l := by
  induction l with
  | nil => simp [sortRows]
  | cons x xs ih => simp [sortRows, mem_orderedIns, ih]

/-- Membership in a Search result: a stored row that passes the WHERE clause. -/
theorem mem_Search (opts : FilterOptions) (db : DBState) (t : Todo) :
    t ∈ Search opts db ↔ (t ∈ db.rows ∧ rowPasses opts t = true) := by
  simp [Search, mem_sortRows, List.mem_filter]

/-- Membership in a GetAll result: any stored row. -/
theorem mem_GetAll (db : DBState) (t : Todo) :
    t ∈ GetAll db ↔ t ∈ db.rows := by
  simp [GetAll, mem_sortRows]

/-- The WHERE clause splits into its search part and its completed part. -/
theorem rowPasses_split (opts : FilterOptions) (t : Todo) :
    rowPasses opts t =
      (rowPasses { opts with Completed := none } t
        && match opts.Completed with
           | some c => t.Completed == c
           | none => true) := by
  simp [rowPasses]

/-- Field-level reading of the dynamic UPDATE row transformation. -/
theorem applyUpdate_fields (req : UpdateTodoRequest) (now : Nat) (t : Todo) :
    (applyUpdate req now t).ID = t.ID ∧
    (applyUpdate req now t).CreatedAt = t.CreatedAt ∧
    (applyUpdate req now t).UpdatedAt = now ∧
    (applyUpdate req now t).Title = req.Title.getD t.Title ∧
    (applyUpdate req now t).Description = req.Description.getD t.Description ∧
    (applyUpdate req now t).Completed = req.Completed.getD t.Completed := by
  obtain ⟨a, b, c⟩ := req
  cases a <;> cases b <;> cases c <;> simp [applyUpdate]

/-- find? commutes with a map that leaves the predicate unchanged. -/
theorem find?_map_pres (p : Todo → Bool) (g : Todo → Todo)
    (hp : ∀ x, p (g x) = p x) (l : List Todo) :
    List.find? p (l.map g) = (List.find? p l).map g := by
  induction l with
  | nil => simp
  | cons a l ih =>
    cases h : p a
    · have hga : p (g a) = false := by rw [hp a, h]
      simp [List.find?_cons, h, hga, ih]
    · have hga : p (g a) = true := by rw [hp a, h]
      simp [List.find?_cons, h, hga]

/-- find? over an appended element when nothing before it matches. -/
theorem find?_append_last (p : Todo → Bool) (x : Todo) (l : List Todo)
    (hl : ∀ u ∈ l, p u = false) (hx : p x = true) :
    List.find? p (l ++ [x]) = some x := by
  induction l with
  | nil => simp [List.find?_cons, hx]
  | cons a l ih =>
    have ha : p a = false := hl a (List.mem_cons_self a l)
    simp only [List.cons_append, List.find?_cons, ha]
    exact ih fun u hu => hl u (List.mem_cons_of_mem a hu)

/-- A pointwise property gives Forall₂ against the mapped list. -/
theorem forall2_map_self (p : Todo → Todo → Prop) (g : Todo → Todo)
    (l : List Todo) : (∀ x ∈ l, p x (g x)) → List.Forall₂ p l (l.map g) := by
  induction l with
  | nil => intro _; exact List.Forall₂.nil
  | cons x xs ih =>
    intro h
    exact List.Forall₂.cons (h x (by simp)) (ih fun y hy => h y (by simp [hy]))

/-- A pointwise reflexive property gives Forall₂ of a list with itself. -/
theorem forall2_refl_of (p : Todo → Todo → Prop) (l : List Todo) :
    (∀ x ∈ l, p x x) → List.Forall₂ p l l := by
  induction l with
  | nil => intro _; exact List.Forall₂.nil
  | cons x xs ih =>
    intro h
    exact List.Forall₂.cons (h x (by simp)) (ih fun y hy => h y (by simp [hy]))

/-- Search with every FilterOptions field empty is GetAll. -/
theorem Search_empty_eq_GetAll (db : DBState) :
    Search ⟨"", none, "", ""⟩ db = GetAll db := by
  have h : db.rows.filter (rowPasses ⟨"", none, "", ""⟩) = db.rows := by
    simp [rowPasses]
  simp [Search, GetAll, h, resolveSortBy, resolveSortAsc]

/-- The fast-path test holds exactly when search, completed and sortBy are
empty (sortOrder plays no part). -/
theorem fastPathCond_iff (q : QueryParams) :
    fastPathCond q = true ↔ (q.search = "" ∧ q.completed = "" ∧ q.sortBy = "") := by
  by_cases h : q.completed = "" <;>
    simp [fastPathCond, buildOpts, h, Bool.and_eq_true]

/-- The row predicate of the UPDATE ... WHERE id clause is untouched by the
update itself (the id column is never written). -/
theorem upd_pred_pres (id : Int) (req : UpdateTodoRequest) (now : Nat) (x : Todo) :
    ((if x.ID == id then applyUpdate req now x else x).ID == id) = (x.ID == id) := by
  cases h : x.ID == id <;>
    simp [h, (applyUpdate_fields req now x).1]

/-- A one-row store (id 1), for concrete evaluations. -/
def oneRowDB : DBState := ⟨[⟨1, "a", "", false, 0, 0⟩], 2⟩

/-- Claim C1: the DELETE handler answers 404 for every non-nil repository
error, including a failed SQL execution; the claimed mapping of a
persistence failure to 500 does not hold (the spec's 500 row and the
handler's own documented 500 outcome are unreachable for DELETE). -/
theorem c1_delete_exec_failure_mapped_to_404 :
    (Delete (some "disk I/O error") 1 oneRowDB).1 =
      DeleteResult.execFailed "disk I/O error" ∧
    DeleteTodoStatus (some "disk I/O error") 1 oneRowDB = 404 ∧
    DeleteTodoStatus (some "disk I/O error") 1 oneRowDB ≠ 500 ∧
    DeleteTodoStatus none 2 oneRowDB = 404 ∧
    DeleteTodoStatus none 1 oneRowDB = 204 := by decide

/-- Two rows whose created_at order (1 before 2) differs from their
updated_at order (2 before 1). -/
def skewDB : DBState := ⟨[⟨1, "a", "", false, 0, 10⟩, ⟨2, "b", "", false, 5, 3⟩], 3⟩

/-- Claim C2: the repository allow-list holds snake_case column names, so the
API value "updatedAt" is outside it and GET /api/todos?sortBy=updatedAt
silently orders by created_at, not by updatedAt as the claimed allow-list
{createdAt, updatedAt, title} would give. -/
theorem c2_sortBy_updatedAt_not_honored :
    validSortField "updated_at" = true ∧
    validSortField "updatedAt" = false ∧
    GetAllTodos ⟨"", "", "updatedAt", "asc"⟩ skewDB =
      [⟨1, "a", "", false, 0, 10⟩, ⟨2, "b", "", false, 5, 3⟩] ∧
    sortRows (sortLe "updated_at" true) skewDB.rows =
      [⟨2, "b", "", false, 5, 3⟩, ⟨1, "a", "", false, 0, 10⟩] := by decide

/-- One completed and one uncompleted row, for the completed-filter claims. -/
def mixedDB : DBState := ⟨[⟨1, "a", "", true, 0, 0⟩, ⟨2, "b", "", false, 1, 1⟩], 3⟩

/-- Claim C3, counterexample: with completed=banana the handler does not
treat the value as unset; it filters to the uncompleted row only, while with
the parameter absent both rows come back. -/
theorem c3_cex_other_value_filters :
    GetAllTodos ⟨"", "banana", "", ""⟩ mixedDB = [⟨2, "b", "", false, 1, 1⟩] ∧
    GetAllTodos ⟨"", "", "", ""⟩ mixedDB =
      [⟨2, "b", "", false, 1, 1⟩, ⟨1, "a", "", true, 0, 0⟩] := by decide

/-- Two uncompleted rows with distinct created_at, for the fast-path claims. -/
def twoRowDB : DBState := ⟨[⟨1, "a", "", false, 0, 0⟩, ⟨2, "b", "", false, 5, 5⟩], 3⟩

/-- Claim C4, counterexample: with only sortOrder=asc set the handler still
takes the GetAll fast path (the condition never reads sortOrder) and returns
created_at descending, while Search on the composed options would return
ascending: the fast path is taken outside all-four-empty and is not
equivalent there. -/
theorem c4_cex_sortorder_not_checked :
    fastPathCond ⟨"", "", "", "asc"⟩ = true ∧
    GetAllTodos ⟨"", "", "", "asc"⟩ twoRowDB =
      [⟨2, "b", "", false, 5, 5⟩, ⟨1, "a", "", false, 0, 0⟩] ∧
    Search (buildOpts ⟨"", "", "", "asc"⟩) twoRowDB =
      [⟨1, "a", "", false, 0, 0⟩, ⟨2, "b", "", false, 5, 5⟩] := by decide

/-- A row whose title and description hold no LIKE metacharacter. -/
def plainRow : Todo := ⟨1, "abc", "xyz", false, 0, 0⟩

/-- Claim C10: Search wraps the term in % unescaped, so searching for the
term "%" matches a row that does not contain "%" literally anywhere. -/
theorem c10_like_metacharacters_are_wildcards :
    Search ⟨"%", none, "", ""⟩ ⟨[plainRow], 2⟩ = [plainRow] ∧
    containsSub "%".toList plainRow.Title.toList = false ∧
    containsSub "%".toList plainRow.Description.toList = false := by decide

/-- Claim C5: Create appends exactly one row; the returned todo is that
stored row, with completed false, the request's title and description,
created_at equal to updated_at equal to the write instant, and an id no
existing row has. -/
theorem c5_create_inserts_one_row (req : CreateTodoRequest) (now : Nat)
    (db : DBState) (hwf : ∀ u ∈ db.rows, u.ID < db.nextId)
    (_hTitle : req.Title ≠ "") :
    (Create req now db).2.rows = db.rows ++ [(Create req now db).1] ∧
    (Create req now db).1.Completed = false ∧
    (Create req now db).1.Title = req.Title ∧
    (Create req now db).1.Description = req.Description ∧
    (Create req now db).1.CreatedAt = now ∧
    (Create req now db).1.UpdatedAt = now ∧
    (∀ u ∈ db.rows, u.ID ≠ (Create req now db).1.ID) := by
  refine ⟨rfl, rfl, rfl, rfl, rfl, rfl, fun u hu => ?_⟩
  exact Int.ne_of_lt (hwf u hu)

/-- Witness for C5 at a concrete request and store. -/
theorem c5_create_inserts_one_row_w :
    (Create ⟨"t", "d"⟩ 7 ⟨[], 1⟩).1.Completed = false ∧
    (Create ⟨"t", "d"⟩ 7 ⟨[], 1⟩).1.CreatedAt = 7 ∧
    (Create ⟨"t", "d"⟩ 7 ⟨[], 1⟩).1.UpdatedAt = 7 := by
  have h := c5_create_inserts_one_row ⟨"t", "d"⟩ 7 ⟨[], 1⟩
    (by intro u hu; cases hu) (by decide)
  exact ⟨h.2.1, h.2.2.2.2.1, h.2.2.2.2.2.1⟩

/-- Claim C7: Update on an id the store does not hold returns the not-found
outcome and leaves the store untouched. -/
theorem c7_update_missing_id_no_write (id : Int) (req : UpdateTodoRequest)
    (now : Nat) (db : DBState) (h : GetByID id db = none) :
    Update id req now db = (none, db) := by
  simp [Update, h]

/-- Witness for C7 on the empty store. -/
theorem c7_update_missing_id_no_write_w :
    Update 1 ⟨none, none, none⟩ 5 ⟨[], 1⟩ = (none, (⟨[], 1⟩ : DBState)) :=
  c7_update_missing_id_no_write 1 ⟨none, none, none⟩ 5 ⟨[], 1⟩ rfl

/-- Claim C8: reading back the id Create returned, with no operation in
between, yields exactly the todo Create returned. -/
theorem c8_create_then_get_roundtrip (req : CreateTodoRequest) (now : Nat)
    (db : DBState) (hwf : ∀ u ∈ db.rows, u.ID < db.nextId) :
    GetByID (Create req now db).1.ID (Create req now db).2 =
      some (Create req now db).1 := by
  have hl : ∀ u ∈ db.rows, (u.ID == db.nextId) = false := by
    intro u hu
    simpa using Int.ne_of_lt (hwf u hu)
  exact find?_append_last _ _ _ hl (by simp [Create])

/-- Witness for C8 at a concrete request and store. -/
theorem c8_create_then_get_roundtrip_w :
    GetByID (Create ⟨"x", "y"⟩ 4 ⟨[], 1⟩).1.ID (Create ⟨"x", "y"⟩ 4 ⟨[], 1⟩).2 =
      some (Create ⟨"x", "y"⟩ 4 ⟨[], 1⟩).1 :=
  c8_create_then_get_roundtrip ⟨"x", "y"⟩ 4 ⟨[], 1⟩ (by intro u hu; cases hu)

/-- Claim C6: on an existing todo, Update applies exactly the fields present
in the request: with title and description absent the returned row is the old
row with completed replaced only when given and updatedAt set to now; and
row-for-row, ids and created_at are untouched, rows with other ids are
byte-identical, and present fields overwrite while absent fields keep the
stored value. -/
theorem c6_update_merges_present_fields (id : Int) (req : UpdateTodoRequest)
    (now : Nat) (db : DBState) (t0 : Todo) (h : GetByID id db = some t0) :
    (req.Title = none → req.Description = none →
       (Update id req now db).1 =
         some { t0 with Completed := req.Completed.getD t0.Completed,
                        UpdatedAt := now }) ∧
    List.Forall₂ (fun t t' =>
        t'.ID = t.ID ∧ t'.CreatedAt = t.CreatedAt ∧
        ((t.ID == id) = true →
          t'.UpdatedAt = now ∧ t'.Title = req.Title.getD t.Title ∧
          t'.Description = req.Description.getD t.Description ∧
          t'.Completed = req.Completed.getD t.Completed) ∧
        ((t.ID == id) = false → t' = t))
      db.rows (Update id req now db).2.rows := by
  have hfind : List.find? (fun t => t.ID == id) db.rows = some t0 := h
  have hp : (t0.ID == id) = true := by
    have hq := List.find?_some hfind
    simpa using hq
  have hp' : t0.ID = id := by simpa using hp
  have hres : Update id req now db =
      (GetByID id ⟨db.rows.map fun t => if t.ID == id then applyUpdate req now t else t, db.nextId⟩,
       ⟨db.rows.map fun t => if t.ID == id then applyUpdate req now t else t, db.nextId⟩) := by
    unfold Update
    rw [h]
  constructor
  · intro hT hD
    rw [hres]
    show List.find? (fun t => t.ID == id)
        (db.rows.map fun t => if t.ID == id then applyUpdate req now t else t) = _
    rw [find?_map_pres _ _ (upd_pred_pres id req now), hfind]
    cases hc : req.Completed <;> simp [hp, hp', applyUpdate, hT, hD, hc]
  · rw [hres]
    apply forall2_map_self
    intro x _hx
    have hf := applyUpdate_fields req now x
    cases hid : x.ID == id
    · refine ⟨?_, ?_, ?_, ?_⟩ <;> simp [hid]
    · refine ⟨?_, ?_, ?_, ?_⟩ <;>
        simp [hid, hf.1, hf.2.1, hf.2.2.1, hf.2.2.2.1, hf.2.2.2.2.1, hf.2.2.2.2.2]

/-- One-row store for the C6 witness. -/
def c6db : DBState := ⟨[⟨1, "a", "b", false, 2, 2⟩], 2⟩

/-- Witness for C6. -/
theorem c6_update_merges_present_fields_w :
    (Update 1 ⟨none, none, some true⟩ 9 c6db).1 =
      some ⟨1, "a", "b", true, 2, 9⟩ := by
  have h := (c6_update_merges_present_fields 1 ⟨none, none, some true⟩ 9 c6db
    ⟨1, "a", "b", false, 2, 2⟩ (by decide)).1 rfl rfl
  simpa using h

/-- Claim C4, amended: the fast path is taken exactly when search, completed
and sortBy are empty (sortOrder is never consulted); when all four parameters
are empty the fast path agrees with Search on the composed FilterOptions and
returns GetAll's createdAt-descending order. -/
theorem c4_fastpath_scope_and_equiv (q : QueryParams) (db : DBState) :
    (fastPathCond q = true ↔ (q.search = "" ∧ q.completed = "" ∧ q.sortBy = "")) ∧
    (q.search = "" → q.completed = "" → q.sortBy = "" → q.sortOrder = "" →
       GetAllTodos q db = Search (buildOpts q) db ∧ GetAllTodos q db = GetAll db) := by
  constructor
  · exact fastPathCond_iff q
  · intro hs hc hb ho
    obtain ⟨s, c, sb, so⟩ := q
    simp only at hs hc hb ho
    subst hs; subst hc; subst hb; subst ho
    have hfp : GetAllTodos ⟨"", "", "", ""⟩ db = GetAll db := by
      simp [GetAllTodos, fastPathCond, buildOpts]
    have hbo : buildOpts ⟨"", "", "", ""⟩ = ⟨"", none, "", ""⟩ := rfl
    refine ⟨?_, hfp⟩
    rw [hfp, hbo, Search_empty_eq_GetAll]

/-- Claim C3, amended: for a stored row, membership in the GET /api/todos
response depends on the completed parameter as: "true" keeps only completed
rows, empty keeps rows of both completion states (no filter beyond search),
and any other non-empty value keeps only uncompleted rows (it is compared
with "true", so it acts as false, not as unset). -/
theorem c3_completed_tristate (q : QueryParams) (db : DBState) (t : Todo)
    (ht : t ∈ db.rows) :
    (q.completed = "" →
       (t ∈ GetAllTodos q db ↔
         rowPasses { buildOpts q with Completed := none } t = true)) ∧
    (q.completed = "true" →
       (t ∈ GetAllTodos q db ↔
         (rowPasses { buildOpts q with Completed := none } t = true ∧
          t.Completed = true))) ∧
    (q.completed ≠ "" → q.completed ≠ "true" →
       (t ∈ GetAllTodos q db ↔
         (rowPasses { buildOpts q with Completed := none } t = true ∧
          t.Completed = false))) := by
  by_cases hf : fastPathCond q = true
  · obtain ⟨hs, hc, hb⟩ := (fastPathCond_iff q).mp hf
    have hmem : t ∈ GetAllTodos q db := by
      simp [GetAllTodos, hf, mem_GetAll, ht]
    have hrp : rowPasses { buildOpts q with Completed := none } t = true := by
      simp [rowPasses, buildOpts, hs]
    refine ⟨fun _ => by simp [hmem, hrp], fun h1 => absurd (hc ▸ h1) (by simp [hc]), fun h1 _ => absurd hc h1⟩
  · have hg : GetAllTodos q db = Search (buildOpts q) db := by
      simp [GetAllTodos, hf]
    have hmem : t ∈ GetAllTodos q db ↔ rowPasses (buildOpts q) t = true := by
      rw [hg, mem_Search]
      simp [ht]
    have hsplit := rowPasses_split (buildOpts q) t
    refine ⟨?_, ?_, ?_⟩
    · intro hc
      have hco : (buildOpts q).Completed = none := by simp [buildOpts, hc]
      rw [hmem, hsplit, hco]
      simp
    · intro hc
      have hco : (buildOpts q).Completed = some true := by simp [buildOpts, hc]
      rw [hmem, hsplit, hco]
      simp [Bool.and_eq_true]
    · intro h1 h2
      have hco : (buildOpts q).Completed = some false := by
        simp [buildOpts, h1]
        exact h2
      rw [hmem, hsplit, hco]
      simp [Bool.and_eq_true]

/-- Witness for C3. -/
theorem c3_completed_tristate_w :
    (⟨1, "a", "", true, 0, 0⟩ : Todo) ∈ GetAllTodos ⟨"", "true", "", ""⟩ mixedDB := by
  have h := (c3_completed_tristate ⟨"", "true", "", ""⟩ mixedDB
    ⟨1, "a", "", true, 0, 0⟩ (by decide)).2.1 rfl
  exact h.mpr (by decide)

/-- All row timestamps are ordered and bounded by the instant τ. -/
def timesOk (db : DBState) (τ : Nat) : Prop :=
  ∀ t ∈ db.rows, t.CreatedAt ≤ t.UpdatedAt ∧ t.UpdatedAt ≤ τ

/-- Every mutation at an instant past the bound preserves timesOk. -/
theorem timesOk_applyOp (op : Op) (now : Nat) (db : DBState) (τ : Nat)
    (h : timesOk db τ) (hle : τ ≤ now) : timesOk (applyOp op now db) now := by
  cases op with
  | createOp req =>
    intro t ht
    have ht' : t ∈ db.rows ++ [(Create req now db).1] := ht
    rcases List.mem_append.mp ht' with h1 | h2
    · exact ⟨(h t h1).1, (h t h1).2.trans hle⟩
    · have : t = (Create req now db).1 := by simpa using h2
      subst this
      exact ⟨le_refl _, le_refl _⟩
  | updateOp id req =>
    intro t ht
    change t ∈ (Update id req now db).2.rows at ht
    cases hg : GetByID id db with
    | none =>
      rw [show (Update id req now db).2 = db by simp [Update, hg]] at ht
      exact ⟨(h t ht).1, (h t ht).2.trans hle⟩
    | some t0 =>
      have hrows : (Update id req now db).2.rows =
          db.rows.map fun x => if x.ID == id then applyUpdate req now x else x := by
        simp [Update, hg]
      rw [hrows] at ht
      obtain ⟨u, hu, rfl⟩ := List.mem_map.mp ht
      have hf := applyUpdate_fields req now u
      cases hid : u.ID == id
      · simp only [hid, Bool.false_eq_true, if_false]
        exact ⟨(h u hu).1, (h u hu).2.trans hle⟩
      · simp only [hid, if_true]
        refine ⟨?_, ?_⟩
        · rw [hf.2.1, hf.2.2.1]
          exact ((h u hu).1.trans (h u hu).2).trans hle
        · rw [hf.2.2.1]
  | deleteOp id =>
    intro t ht
    have ht' : t ∈ (Delete none id db).2.rows := ht
    simp only [Delete] at ht'
    split at ht'
    · exact ⟨(h t ht').1, (h t ht').2.trans hle⟩
    · have := List.mem_filter.mp ht'
      exact ⟨(h t this.1).1, (h t this.1).2.trans hle⟩

/-- Reachable states satisfy timesOk at their last-write instant. -/
theorem reach_timesOk {db : DBState} {τ : Nat} (h : Reach db τ) : timesOk db τ := by
  induction h with
  | init => intro t ht; cases ht
  | step op now hr hle ih => exact timesOk_applyOp op now _ _ ih hle

/-- Claim C9: in every reachable store state updatedAt is at least createdAt;
Create returns a row whose two timestamps are the same instant; Update at a
later-or-equal instant never writes id or createdAt of any row and never
decreases updatedAt; and every operation run at a later-or-equal instant
preserves the invariant. -/
theorem c9_timestamp_invariant (db : DBState) (τ : Nat) (h : Reach db τ) :
    (∀ t ∈ db.rows, t.CreatedAt ≤ t.UpdatedAt) ∧
    (∀ req now, (Create req now db).1.CreatedAt = (Create req now db).1.UpdatedAt) ∧
    (∀ id req now, τ ≤ now →
       List.Forall₂ (fun t t' => t'.ID = t.ID ∧ t'.CreatedAt = t.CreatedAt ∧
           t.UpdatedAt ≤ t'.UpdatedAt)
         db.rows (Update id req now db).2.rows) ∧
    (∀ op now, τ ≤ now → ∀ t ∈ (applyOp op now db).rows,
       t.CreatedAt ≤ t.UpdatedAt) := by
  have htimes := reach_timesOk h
  refine ⟨fun t ht => (htimes t ht).1, fun req now => rfl, ?_, ?_⟩
  · intro id req now hle
    cases hg : GetByID id db with
    | none =>
      rw [show (Update id req now db).2 = db by simp [Update, hg]]
      apply forall2_refl_of
      intro x _
      exact ⟨rfl, rfl, le_refl _⟩
    | some t0 =>
      rw [show (Update id req now db).2.rows =
          db.rows.map fun x => if x.ID == id then applyUpdate req now x else x by
        simp [Update, hg]]
      apply forall2_map_self
      intro x hx
      have hf := applyUpdate_fields req now x
      cases hid : x.ID == id
      · simp [hid]
      · simp only [hid, if_true]
        refine ⟨hf.1, hf.2.1, ?_⟩
        rw [hf.2.2.1]
        exact (htimes x hx).2.trans hle
  · intro op now hle t ht
    exact (timesOk_applyOp op now _ _ htimes hle t ht).1

/-- A store holding one row written at instant 5, reached by one Create. -/
def oneWriteDB : DBState := applyOp (.createOp ⟨"a", "b"⟩) 5 ⟨[], 1⟩

/-- Witness for C9 at a concrete reachable store. -/
theorem c9_timestamp_invariant_w :
    (⟨1, "a", "b", false, 5, 5⟩ : Todo).CreatedAt ≤
      (⟨1, "a", "b", false, 5, 5⟩ : Todo).UpdatedAt :=
  (c9_timestamp_invariant oneWriteDB 5
    (Reach.step (.createOp ⟨"a", "b"⟩) 5 Reach.init (by decide))).1 _ (by decide)

end TodoApp
